import Mathlib

/-!
Shallow embedding of the audio production pipeline of this repository:

* the Narration Unit Planner (script prepare-audio-chunks.js),
* the Silence Asset Library and the Synthesis Runner (script
  generate-chapter-audio.js),
* the Assembler (script concat-chapter-audio.js).

Durations are exact rationals built with mkRat, so that 0.8 is mkRat 8 10
and so on; the JavaScript constants are exact binary/decimal floats and all
the scripts ever do with them is compare them and use them as keys, so this
embedding preserves their behaviour.  The filesystem is a list of
AudioPath values; the external synthesis capability is an oracle mapping
the index of each HTTP call to its outcome.
-/

/-- Pause durations in seconds (prepare-audio-chunks.js, PAUSES object):
afterTitle 2.0. -/
def PAUSES.afterTitle : ℚ := mkRat 20 10

/-- PAUSES.afterParagraph = 0.8 seconds. -/
def PAUSES.afterParagraph : ℚ := mkRat 8 10

/-- PAUSES.afterQuote = 1.5 seconds. -/
def PAUSES.afterQuote : ℚ := mkRat 15 10

/-- PAUSES.afterSection = 2.5 seconds. -/
def PAUSES.afterSection : ℚ := mkRat 25 10

/-- PAUSES.endChapter = 3.0 seconds. -/
def PAUSES.endChapter : ℚ := mkRat 30 10

/-- Matcher for one term marker at the head of the input, regex
\x7bterm:([^}|]+)(?:\|([^}]+))?\x7d of cleanText: on success returns the
replacement (custom display text if supplied, otherwise the raw term id)
and the input after the marker. -/
def matchTermMarker : List Char → Option (List Char × List Char)
  | '\x7b' :: 't' :: 'e' :: 'r' :: 'm' :: ':' :: rest =>
    let termId := rest.takeWhile (fun ch => ch != '\x7d' && ch != '|')
    let rest1 := rest.dropWhile (fun ch => ch != '\x7d' && ch != '|')
    if termId.isEmpty then none
    else
      match rest1 with
      | '\x7d' :: rest2 => some (termId, rest2)
      | '|' :: rest2 =>
        let custom := rest2.takeWhile (fun ch => ch != '\x7d')
        let rest3 := rest2.dropWhile (fun ch => ch != '\x7d')
        if custom.isEmpty then none
        else
          match rest3 with
          | '\x7d' :: rest4 => some (custom, rest4)
          | _ => none
      | _ => none
  | _ => none

/-- Matcher for one reference marker at the head of the input, regex
\x7bref:([^}]+)\x7d of cleanText: on success returns the input after the
marker (the replacement is empty). -/
def matchRefMarker : List Char → Option (List Char)
  | '\x7b' :: 'r' :: 'e' :: 'f' :: ':' :: rest =>
    let content := rest.takeWhile (fun ch => ch != '\x7d')
    let rest1 := rest.dropWhile (fun ch => ch != '\x7d')
    if content.isEmpty then none
    else
      match rest1 with
      | '\x7d' :: rest2 => some rest2
      | _ => none
  | _ => none

/-- Left-to-right global replacement of term markers.  The fuel is the
length of the input; every step consumes at least one character, so the
fuel never runs out on the wrapper call. -/
def replaceTermsAux : Nat → List Char → List Char
  | 0, cs => cs
  | _ + 1, [] => []
  | fuel + 1, ch :: cs =>
    match matchTermMarker (ch :: cs) with
    | some r => r.1 ++ replaceTermsAux fuel r.2
    | none => ch :: replaceTermsAux fuel cs

/-- Left-to-right global removal of reference markers, fuelled like
replaceTermsAux. -/
def replaceRefsAux : Nat → List Char → List Char
  | 0, cs => cs
  | _ + 1, [] => []
  | fuel + 1, ch :: cs =>
    match matchRefMarker (ch :: cs) with
    | some rest => replaceRefsAux fuel rest
    | none => ch :: replaceRefsAux fuel cs

/-- Global removal of one literal tag (the replace calls for em and strong
tags in cleanText), fuelled like replaceTermsAux. -/
def stripTag (tag : List Char) : Nat → List Char → List Char
  | 0, cs => cs
  | _ + 1, [] => []
  | fuel + 1, ch :: cs =>
    if (ch :: cs).take tag.length = tag then
      stripTag tag fuel ((ch :: cs).drop tag.length)
    else ch :: stripTag tag fuel cs

/-- Whitespace collapsing, regex replacement of runs of whitespace by one
space; the flag records whether the previous character was whitespace. -/
def collapseWsAux : Bool → List Char → List Char
  | _, [] => []
  | prevWs, ch :: cs =>
    if ch.isWhitespace then
      if prevWs then collapseWsAux true cs
      else ' ' :: collapseWsAux true cs
    else ch :: collapseWsAux false cs

/-- Trim of leading and trailing whitespace. -/
def trimChars (cs : List Char) : List Char :=
  ((cs.dropWhile Char.isWhitespace).reverse.dropWhile Char.isWhitespace).reverse

/-- cleanText of prepare-audio-chunks.js: replace term markers, drop ref
markers, remove em and strong tags, collapse whitespace and trim. -/
def cleanText (text : String) : String :=
  if text = "" then ""
  else
    let cs0 := text.data
    let cs1 := replaceTermsAux cs0.length cs0
    let cs2 := replaceRefsAux cs1.length cs1
    let cs3 := stripTag ("<em>".data) cs2.length cs2
    let cs4 := stripTag ("</em>".data) cs3.length cs3
    let cs5 := stripTag ("<strong>".data) cs4.length cs4
    let cs6 := stripTag ("</strong>".data) cs5.length cs5
    String.mk (trimChars (collapseWsAux false cs6))

/-- String(n).padStart(3, the zero digit). -/
def pad3 (n : Nat) : String :=
  let s := toString n
  if s.length < 3 then String.mk (List.replicate (3 - s.length) '0') ++ s
  else s

/-- Chunk id scheme of prepare-audio-chunks.js. -/
def chunkId (chapterNum : Nat) (i : Nat) : String :=
  "ch" ++ toString chapterNum ++ "-chunk-" ++ pad3 i

/-- One content block of a chapter section (fields used by the scripts:
type, either the string paragraph or the string quote, and text). -/
structure Block where
  type : String
  text : String
deriving DecidableEq

/-- One section of a chapter document (the scripts only read its content
list). -/
structure Section where
  content : List Block
deriving DecidableEq

/-- A chapter document (the fields the planner reads). -/
structure Chapter where
  numberText : String
  title : String
  sections : List Section
deriving DecidableEq

/-- One narration unit of the manifest. -/
structure Chunk where
  id : String
  type : String
  text : String
  pauseAfter : ℚ
deriving DecidableEq

/-- The manifest written by the planner (chunks.json). -/
structure ChunksData where
  chapter : Nat
  title : String
  lang : String
  totalChunks : Nat
  chunks : List Chunk
deriving DecidableEq

/-- Pause assignment of prepare-audio-chunks.js lines 86-97: start from
afterParagraph, switch to afterQuote for a quote block, then override with
endChapter when the block is last in the last section, else with
afterSection when it is last in its section. -/
def blockPauseAfter (btype : String) (isLastBlock isLastSection : Bool) : ℚ :=
  let pauseAfter := PAUSES.afterParagraph
  let pauseAfter := if btype = "quote" then PAUSES.afterQuote else pauseAfter
  if isLastBlock && isLastSection then PAUSES.endChapter
  else if isLastBlock then PAUSES.afterSection
  else pauseAfter

/-- The inner forEach over the content blocks of one section: skips blocks
whose cleaned text is empty without consuming a chunk index, otherwise
emits a chunk and advances the index.  Returns the emitted chunks and the
final chunk index. -/
def blocksChunks (chapterNum : Nat) (isLastSection : Bool) :
    List Block → Nat → List Chunk × Nat
  | [], chunkIndex => ([], chunkIndex)
  | b :: rest, chunkIndex =>
    let isLastBlock := rest.isEmpty
    let cleanedText := cleanText b.text
    if cleanedText = "" then
      blocksChunks chapterNum isLastSection rest chunkIndex
    else
      let res := blocksChunks chapterNum isLastSection rest (chunkIndex + 1)
      (⟨chunkId chapterNum chunkIndex, b.type, cleanedText,
          blockPauseAfter b.type isLastBlock isLastSection⟩ :: res.1,
        res.2)

/-- The outer forEach over the sections of the chapter. -/
def sectionsChunks (chapterNum : Nat) : List Section → Nat → List Chunk × Nat
  | [], chunkIndex => ([], chunkIndex)
  | s :: rest, chunkIndex =>
    let isLastSection := rest.isEmpty
    let res := blocksChunks chapterNum isLastSection s.content chunkIndex
    let res2 := sectionsChunks chapterNum rest res.2
    (res.1 ++ res2.1, res2.2)

/-- prepareChapterChunks of prepare-audio-chunks.js: the leading intro
chunk (chapter ordinal label and title, pause afterTitle) followed by the
chunks of every section, starting the content chunk index at 1. -/
def prepareChapterChunks (chapterNum : Nat) (lang : String) (chapter : Chapter) :
    ChunksData :=
  let intro : Chunk :=
    ⟨chunkId chapterNum 0, "intro", chapter.numberText ++ ". " ++ chapter.title,
      PAUSES.afterTitle⟩
  let chunks := intro :: (sectionsChunks chapterNum chapter.sections 1).1
  ⟨chapterNum, chapter.title, lang, chunks.length, chunks⟩

/-- Pause policy as the specification words it, for the refinement claim
about pause precedence: chapter-end (3.0) overrides everything, then the
section boundary (2.5) overrides the type-based pause, then a quote gets
1.5 and a paragraph 0.8. -/
def pausePolicySpec (btype : String) (isLastBlock isLastSection : Bool) : ℚ :=
  if isLastBlock && isLastSection then mkRat 30 10
  else if isLastBlock then mkRat 25 10
  else if btype = "quote" then mkRat 15 10
  else mkRat 8 10

/-- Specification-side copy of blocksChunks whose only difference is that
pauses come from pausePolicySpec. -/
def blocksChunksSpec (chapterNum : Nat) (isLastSection : Bool) :
    List Block → Nat → List Chunk × Nat
  | [], chunkIndex => ([], chunkIndex)
  | b :: rest, chunkIndex =>
    let isLastBlock := rest.isEmpty
    let cleanedText := cleanText b.text
    if cleanedText = "" then
      blocksChunksSpec chapterNum isLastSection rest chunkIndex
    else
      let res := blocksChunksSpec chapterNum isLastSection rest (chunkIndex + 1)
      (⟨chunkId chapterNum chunkIndex, b.type, cleanedText,
          pausePolicySpec b.type isLastBlock isLastSection⟩ :: res.1,
        res.2)

/-- Specification-side copy of sectionsChunks. -/
def sectionsChunksSpec (chapterNum : Nat) : List Section → Nat → List Chunk × Nat
  | [], chunkIndex => ([], chunkIndex)
  | s :: rest, chunkIndex =>
    let isLastSection := rest.isEmpty
    let res := blocksChunksSpec chapterNum isLastSection s.content chunkIndex
    let res2 := sectionsChunksSpec chapterNum rest res.2
    (res.1 ++ res2.1, res2.2)

/-- Specification-side planner: intro unit with the long title-level pause
(2.0), then the section chunks with pausePolicySpec. -/
def plannerSpec (chapterNum : Nat) (lang : String) (chapter : Chapter) :
    ChunksData :=
  let intro : Chunk :=
    ⟨chunkId chapterNum 0, "intro", chapter.numberText ++ ". " ++ chapter.title,
      mkRat 20 10⟩
  let chunks := intro :: (sectionsChunksSpec chapterNum chapter.sections 1).1
  ⟨chapterNum, chapter.title, lang, chunks.length, chunks⟩

/-- A file of the audio pipeline: the clip of one chunk id, or the silence
asset of one duration.  Both scripts key silence files by the same
stringified duration, so keying them here by the exact rational duration is
faithful. -/
inductive AudioPath where
  | clip (id : String)
  | silence (d : ℚ)
deriving DecidableEq

/-- Outcome of one call to the synthesis capability: HTTP 200, HTTP 429
(the error message contains 429), or any other error. -/
inductive Resp where
  | ok
  | throttled
  | failed
deriving DecidableEq

/-- State of the synthesis loop of generate-chapter-audio.js: loop index,
the two counters, the number of synthesis calls made, the number of
throttled responses seen, and the filesystem. -/
structure RunState where
  i : Nat
  successCount : Nat
  errorCount : Nat
  calls : Nat
  throttles : Nat
  files : List AudioPath
deriving DecidableEq

/-- Result of running the synthesis loop with a given amount of fuel:
either the loop finished, or the fuel ran out with the loop still going. -/
inductive RunOutcome where
  | done (st : RunState)
  | fuelOut (st : RunState)
deriving DecidableEq

/-- Initial state of the synthesis loop over a given filesystem. -/
def initState (files : List AudioPath) : RunState := ⟨0, 0, 0, 0, 0, files⟩

/-- generateSilence of generate-chapter-audio.js: no-op if the silence
file already exists, otherwise write it.  Returns the new filesystem and
the number of files written. -/
def generateSilence (d : ℚ) (fs : List AudioPath) : List AudioPath × Nat :=
  if AudioPath.silence d ∈ fs then (fs, 0)
  else (AudioPath.silence d :: fs, 1)

/-- The five duration buckets of generateAllSilences. -/
def silenceDurations : List ℚ :=
  [mkRat 8 10, mkRat 15 10, mkRat 20 10, mkRat 25 10, mkRat 30 10]

/-- The for loop of generateAllSilences, threading the filesystem and the
write count. -/
def generateSilences : List ℚ → List AudioPath × Nat → List AudioPath × Nat
  | [], acc => acc
  | d :: rest, acc =>
    let r := generateSilence d acc.1
    generateSilences rest (r.1, acc.2 + r.2)

/-- generateAllSilences of generate-chapter-audio.js over the five
buckets. -/
def generateAllSilences (fs : List AudioPath) : List AudioPath × Nat :=
  generateSilences silenceDurations (fs, 0)

/-- The synthesis loop of generateChapterAudio (lines 152-191): skip a
chunk whose clip exists counting it a success; otherwise call the
synthesis capability: on 200 write the clip and count a success; on a 429
error count an error and retry the same index; on any other error count an
error and move on.  Fuel bounds the number of iterations modelled; the
JavaScript loop itself has no such bound. -/
def runLoop (oracle : Nat → Resp) (chunks : List Chunk) :
    Nat → RunState → RunOutcome
  | 0, st =>
    if st.i < chunks.length then RunOutcome.fuelOut st else RunOutcome.done st
  | fuel + 1, st =>
    if h : st.i < chunks.length then
      let chunk := chunks.get ⟨st.i, h⟩
      if AudioPath.clip chunk.id ∈ st.files then
        runLoop oracle chunks fuel
          { st with i := st.i + 1, successCount := st.successCount + 1 }
      else
        match oracle st.calls with
        | Resp.ok =>
          runLoop oracle chunks fuel
            { st with
              i := st.i + 1
              successCount := st.successCount + 1
              calls := st.calls + 1
              files := AudioPath.clip chunk.id :: st.files }
        | Resp.throttled =>
          runLoop oracle chunks fuel
            { st with
              errorCount := st.errorCount + 1
              calls := st.calls + 1
              throttles := st.throttles + 1 }
        | Resp.failed =>
          runLoop oracle chunks fuel
            { st with
              i := st.i + 1
              errorCount := st.errorCount + 1
              calls := st.calls + 1 }
    else RunOutcome.done st

/-- generateChapterAudio of generate-chapter-audio.js: provision all the
silence assets, then run the synthesis loop on the resulting
filesystem. -/
def generateChapterAudio (oracle : Nat → Resp) (data : ChunksData)
    (fs : List AudioPath) (fuel : Nat) : RunOutcome :=
  runLoop oracle data.chunks fuel (initState (generateAllSilences fs).1)

/-- Exit status of the runner process (main of generate-chapter-audio.js):
zero when errorCount is zero, one otherwise. -/
def runExitCode (st : RunState) : Nat :=
  if st.errorCount = 0 then 0 else 1

/-- A synthesis capability that answers every call with HTTP 429. -/
def alwaysThrottled : Nat → Resp := fun _ => Resp.throttled

/-- The concat list building loop of concat-chapter-audio.js (lines
46-69): for each chunk in manifest order, a missing clip is recorded and
the chunk skipped; otherwise the clip entry is appended and, when the
pause is positive, the silence entry of that duration is appended after
it, aborting the whole run at the first missing silence file.  Returns
the entries and the missing chunk ids, or the duration of the missing
silence. -/
def buildEntries (fs : List AudioPath) :
    List Chunk → Except ℚ (List AudioPath × List String)
  | [] => Except.ok ([], [])
  | chunk :: rest =>
    if AudioPath.clip chunk.id ∈ fs then
      if 0 < chunk.pauseAfter then
        if AudioPath.silence chunk.pauseAfter ∈ fs then
          match buildEntries fs rest with
          | Except.ok res =>
            Except.ok
              (AudioPath.clip chunk.id :: AudioPath.silence chunk.pauseAfter :: res.1,
                res.2)
          | Except.error d => Except.error d
        else Except.error chunk.pauseAfter
      else
        match buildEntries fs rest with
        | Except.ok res => Except.ok (AudioPath.clip chunk.id :: res.1, res.2)
        | Except.error d => Except.error d
    else
      match buildEntries fs rest with
      | Except.ok res => Except.ok (res.1, chunk.id :: res.2)
      | Except.error d => Except.error d

/-- The concat sequence as the specification words it: clip of unit 1,
silence of its pause when positive, clip of unit 2, and so on, strictly in
manifest order. -/
def concatEntriesSpec : List Chunk → List AudioPath
  | [] => []
  | chunk :: rest =>
    AudioPath.clip chunk.id ::
      ((if 0 < chunk.pauseAfter then [AudioPath.silence chunk.pauseAfter] else [])
        ++ concatEntriesSpec rest)

/-- Outcome of one assembler run. -/
inductive ConcatOutcome where
  | silenceAbort (d : ℚ)
  | missingAbort (ids : List String)
  | toolFail
  | completed (entries : List AudioPath)
deriving DecidableEq

/-- The ffmpeg concat invocation: its input list, the path it writes to,
and whether the overwrite flag -y is passed. -/
structure FfmpegCall where
  inputs : List AudioPath
  outputPath : String
  overwrite : Bool
deriving DecidableEq

/-- An assembler run: its outcome plus the ffmpeg invocation it issued, if
any. -/
structure ConcatRun where
  outcome : ConcatOutcome
  invocation : Option FfmpegCall
deriving DecidableEq

/-- The output file of concat-chapter-audio.js line 83: inside the chapter
audio directory, next to the chunks, under the canonical final artifact
name. -/
def concatOutputFile (chapterNum : Nat) (lang : String) : String :=
  "audio/" ++ lang ++ "/ch" ++ toString chapterNum ++ "/ch" ++
    toString chapterNum ++ "-" ++ lang ++ ".mp3"

/-- concatChapterAudio of concat-chapter-audio.js: build the concat list;
abort at a missing silence; abort with the complete missing list when any
clip was missing; otherwise invoke ffmpeg with the overwrite flag directly
on the final output file, which either succeeds or fails fatally.  The
ffmpegOk flag stands for the external tool succeeding. -/
def concatChapterAudio (chapterNum : Nat) (lang : String) (data : ChunksData)
    (fs : List AudioPath) (ffmpegOk : Bool) : ConcatRun :=
  match buildEntries fs data.chunks with
  | Except.error d => ⟨ConcatOutcome.silenceAbort d, none⟩
  | Except.ok res =>
    if res.2 = [] then
      let inv : FfmpegCall := ⟨res.1, concatOutputFile chapterNum lang, true⟩
      if ffmpegOk then ⟨ConcatOutcome.completed res.1, some inv⟩
      else ⟨ConcatOutcome.toolFail, some inv⟩
    else ⟨ConcatOutcome.missingAbort res.2, none⟩

/-- Exit status of the assembler process: zero only on a completed run. -/
def concatExitCode : ConcatOutcome → Nat
  | ConcatOutcome.completed _ => 0
  | _ => 1

/-- Concrete manifest used by several witnesses: the intro unit and one
paragraph unit. -/
def exChunksA : List Chunk :=
  [⟨"ch1-chunk-000", "intro", "One. T", PAUSES.afterTitle⟩,
   ⟨"ch1-chunk-001", "paragraph", "Hello", PAUSES.endChapter⟩]

/-- Manifest wrapper for exChunksA. -/
def exDataA : ChunksData := ⟨1, "T", "en", 2, exChunksA⟩

/-- Filesystem holding exactly the two clips of exChunksA. -/
def exFsA : List AudioPath :=
  [AudioPath.clip "ch1-chunk-000", AudioPath.clip "ch1-chunk-001"]

/-- Filesystem holding the clips of exChunksA and both silence assets they
need. -/
def exFsB : List AudioPath :=
  [AudioPath.clip "ch1-chunk-000", AudioPath.clip "ch1-chunk-001",
   AudioPath.silence PAUSES.afterTitle, AudioPath.silence PAUSES.endChapter]

/-- One-chunk manifest whose clip is never on disk, used for the
throttling runs. -/
def exChunksC4 : List Chunk :=
  [⟨"ch1-chunk-000", "paragraph", "x", PAUSES.afterParagraph⟩]

/-- Two-paragraph manifest for the assembler counterexample. -/
def exChunksC5 : List Chunk :=
  [⟨"ch1-chunk-000", "paragraph", "x", PAUSES.afterParagraph⟩,
   ⟨"ch1-chunk-001", "paragraph", "y", PAUSES.afterParagraph⟩]

/-- Manifest wrapper for exChunksC5. -/
def exDataC5 : ChunksData := ⟨1, "T", "en", 2, exChunksC5⟩

/-- Filesystem for the counterexample: the first clip exists, the second
clip is missing, and the 0.8 second silence asset is missing too. -/
def exFsC5 : List AudioPath := [AudioPath.clip "ch1-chunk-000"]

/-- Filesystem for the amended assembler claim: the first clip and its
silence asset exist, the second clip is missing. -/
def exFsC5w : List AudioPath :=
  [AudioPath.clip "ch1-chunk-000", AudioPath.silence PAUSES.afterParagraph]

/-- Synthesis capability that throttles the first call and succeeds on
every later one. -/
def exOracleC9 : Nat → Resp
  | 0 => Resp.throttled
  | _ + 1 => Resp.ok

/-- One-chunk manifest for the throttled-then-successful run. -/
def exDataC9 : ChunksData :=
  ⟨1, "T", "en", 1, [⟨"ch1-chunk-000", "paragraph", "x", PAUSES.afterParagraph⟩]⟩

/-- Final state of the throttled-then-successful run of exDataC9. -/
def exStC9 : RunState :=
  ⟨1, 1, 1, 2, 1, AudioPath.clip "ch1-chunk-000" :: (generateAllSilences []).1⟩

/-- Chapter whose last content block of the last section cleans to the
empty string (it is a bare reference marker). -/
def exChapterC10 : Chapter :=
  ⟨"One", "The Path",
    [⟨[⟨"paragraph", "Hello"⟩]⟩,
     ⟨[⟨"paragraph", "World"⟩, ⟨"paragraph", "\x7bref:x\x7d"⟩]⟩]⟩

theorem blockPauseAfter_eq_spec (btype : String) (lb ls : Bool) :
    blockPauseAfter btype lb ls = pausePolicySpec btype lb ls := by
  cases lb <;> cases ls <;> by_cases hq : btype = "quote" <;>
    simp [blockPauseAfter, pausePolicySpec, hq, PAUSES.afterParagraph,
      PAUSES.afterQuote, PAUSES.afterSection, PAUSES.endChapter]

theorem blocksChunks_eq_spec (n : Nat) (ls : Bool) (bs : List Block) :
    ∀ idx, blocksChunks n ls bs idx = blocksChunksSpec n ls bs idx := by
  induction bs with
  | nil => intro idx; rfl
  | cons b rest ih =>
    intro idx
    by_cases hc : cleanText b.text = "" <;>
      simp [blocksChunks, blocksChunksSpec, hc, ih, blockPauseAfter_eq_spec]

theorem sectionsChunks_eq_spec (n : Nat) (secs : List Section) :
    ∀ idx, sectionsChunks n secs idx = sectionsChunksSpec n secs idx := by
  induction secs with
  | nil => intro idx; rfl
  | cons s rest ih =>
    intro idx
    simp [sectionsChunks, sectionsChunksSpec, blocksChunks_eq_spec, ih]

/-- Claim C1: for every chapter document the planner assigns pauseAfter by
the stated precedence: the leading intro unit gets the long title-level
pause (2.0s); a block that is the last block of the last section gets the
chapter-end pause (3.0s), overriding everything else; otherwise the last
block of its section gets the section-boundary pause (2.5s), overriding the
type-based pause; otherwise a quote gets 1.5s and a paragraph 0.8s.  Stated
as equality between the embedded planner and the specification-side
planner, which differ exactly in how they word the pause assignment. -/
theorem c1_pause_policy_precedence (chapterNum : Nat) (lang : String)
    (chapter : Chapter) :
    prepareChapterChunks chapterNum lang chapter
      = plannerSpec chapterNum lang chapter := by
  simp [prepareChapterChunks, plannerSpec, sectionsChunks_eq_spec,
    PAUSES.afterTitle]

theorem blocksChunks_snd (n : Nat) (ls : Bool) (bs : List Block) :
    ∀ idx, (blocksChunks n ls bs idx).2
      = idx + (blocksChunks n ls bs idx).1.length := by
  induction bs with
  | nil => intro idx; simp [blocksChunks]
  | cons b rest ih =>
    intro idx
    by_cases hc : cleanText b.text = ""
    · simp [blocksChunks, hc, ih]
    · simp [blocksChunks, hc, ih]
      omega

theorem blocksChunks_ids (n : Nat) (ls : Bool) (bs : List Block) :
    ∀ idx, (blocksChunks n ls bs idx).1.map Chunk.id
      = (List.range' idx (blocksChunks n ls bs idx).1.length).map (chunkId n) := by
  induction bs with
  | nil => intro idx; simp [blocksChunks]
  | cons b rest ih =>
    intro idx
    by_cases hc : cleanText b.text = "" <;>
      simp [blocksChunks, hc, ih, List.range']

theorem blocksChunks_length (n : Nat) (ls : Bool) (bs : List Block) :
    ∀ idx, (blocksChunks n ls bs idx).1.length
      = bs.countP (fun b => decide (¬ cleanText b.text = "")) := by
  induction bs with
  | nil => intro idx; simp [blocksChunks]
  | cons b rest ih =>
    intro idx
    by_cases hc : cleanText b.text = "" <;>
      simp [blocksChunks, hc, ih, List.countP_cons]

theorem sectionsChunks_snd (n : Nat) (secs : List Section) :
    ∀ idx, (sectionsChunks n secs idx).2
      = idx + (sectionsChunks n secs idx).1.length := by
  induction secs with
  | nil => intro idx; simp [sectionsChunks]
  | cons s rest ih =>
    intro idx
    simp [sectionsChunks, blocksChunks_snd, ih]
    omega

theorem range'_map_append (f : Nat → String) (s m k : Nat) :
    (List.range' s m).map f ++ (List.range' (s + m) k).map f
      = (List.range' s (m + k)).map f := by
  have h := List.range'_append s m k 1
  rw [one_mul] at h
  rw [← List.map_append, h, Nat.add_comm k m]

theorem sectionsChunks_ids (n : Nat) (secs : List Section) :
    ∀ idx, (sectionsChunks n secs idx).1.map Chunk.id
      = (List.range' idx (sectionsChunks n secs idx).1.length).map (chunkId n) := by
  induction secs with
  | nil => intro idx; simp [sectionsChunks]
  | cons s rest ih =>
    intro idx
    simp [sectionsChunks, blocksChunks_ids, ih, blocksChunks_snd n]
    exact range'_map_append (chunkId n) idx _ _

theorem sectionsChunks_length (n : Nat) (secs : List Section) :
    ∀ idx, (sectionsChunks n secs idx).1.length
      = ((secs.map Section.content).flatten.countP
          (fun b => decide (¬ cleanText b.text = ""))) := by
  induction secs with
  | nil => intro idx; simp [sectionsChunks]
  | cons s rest ih =>
    intro idx
    simp [sectionsChunks, blocksChunks_length, ih, List.countP_append]

/-- Claim C6: the planner consumes no id for a block whose cleaned text is
empty, so the emitted unit ids are the consecutive ordinals 0, 1, 2, ...,
and the number of emitted units is one (the intro) plus the number of
content blocks that survive cleaning. -/
theorem c6_ids_consecutive (chapterNum : Nat) (lang : String) (chapter : Chapter) :
    (prepareChapterChunks chapterNum lang chapter).chunks.map Chunk.id
      = (List.range (prepareChapterChunks chapterNum lang chapter).chunks.length).map
          (chunkId chapterNum)
    ∧ (prepareChapterChunks chapterNum lang chapter).chunks.length
      = 1 + ((chapter.sections.map Section.content).flatten.countP
          (fun b => decide (¬ cleanText b.text = ""))) := by
  constructor
  · simp only [prepareChapterChunks, List.map_cons, List.length_cons,
      List.range_eq_range']
    rw [sectionsChunks_ids]
    simp [List.range']
  · simp [prepareChapterChunks, sectionsChunks_length, Nat.add_comm]

theorem blocksChunks_not_last_pause (n : Nat) (bs : List Block) :
    ∀ idx c, c ∈ (blocksChunks n false bs idx).1 →
      c.pauseAfter ≠ PAUSES.endChapter := by
  induction bs with
  | nil => intro idx c hc; simp [blocksChunks] at hc
  | cons b rest ih =>
    intro idx c hc
    by_cases hcl : cleanText b.text = ""
    · rw [blocksChunks] at hc
      simp only [hcl, if_pos] at hc
      exact ih idx c hc
    · rw [blocksChunks] at hc
      simp only [hcl, if_neg, List.mem_cons, not_false_eq_true] at hc
      rcases hc with hc | hc
      · subst hc
        show blockPauseAfter b.type rest.isEmpty false ≠ PAUSES.endChapter
        by_cases hlb : rest.isEmpty <;> by_cases hq : b.type = "quote" <;>
          simp only [blockPauseAfter, hlb, hq, Bool.and_false, if_false,
            if_true, Bool.false_and] <;> decide
      · exact ih (idx + 1) c hc

theorem blocksChunks_last_empty_pause (n : Nat) :
    ∀ bs idx b, bs.getLast? = some b → cleanText b.text = "" →
      ∀ c ∈ (blocksChunks n true bs idx).1, c.pauseAfter ≠ PAUSES.endChapter := by
  intro bs
  induction bs with
  | nil => intro idx b hb; simp at hb
  | cons b0 rest ih =>
    intro idx b hb hcl c hc
    cases rest with
    | nil =>
      simp at hb
      subst hb
      rw [blocksChunks] at hc
      simp only [hcl, if_pos] at hc
      simp [blocksChunks] at hc
    | cons b1 rest1 =>
      rw [List.getLast?_cons_cons] at hb
      rw [blocksChunks] at hc
      by_cases hcl0 : cleanText b0.text = ""
      · simp only [hcl0, if_pos] at hc
        exact ih idx b hb hcl c hc
      · simp only [hcl0, if_neg, not_false_eq_true, List.mem_cons] at hc
        rcases hc with hc | hc
        · subst hc
          show blockPauseAfter b0.type (b1 :: rest1).isEmpty true ≠ PAUSES.endChapter
          by_cases hq : b0.type = "quote" <;>
            simp only [blockPauseAfter, hq, List.isEmpty_cons, Bool.false_and,
              if_false, if_true] <;> decide
        · exact ih (idx + 1) b hb hcl c hc

theorem sectionsChunks_last_empty_pause (n : Nat) :
    ∀ secs idx s b, secs.getLast? = some s → s.content.getLast? = some b →
      cleanText b.text = "" →
      ∀ c ∈ (sectionsChunks n secs idx).1, c.pauseAfter ≠ PAUSES.endChapter := by
  intro secs
  induction secs with
  | nil => intro idx s b hs; simp at hs
  | cons s0 rest ih =>
    intro idx s b hs hb hcl c hc
    cases rest with
    | nil =>
      simp at hs
      subst hs
      simp only [sectionsChunks, List.isEmpty_nil, List.append_nil] at hc
      exact blocksChunks_last_empty_pause n _ idx b hb hcl c hc
    | cons s1 rest1 =>
      rw [List.getLast?_cons_cons] at hs
      rw [sectionsChunks] at hc
      simp only [List.isEmpty_cons, List.mem_append] at hc
      rcases hc with hc | hc
      · exact blocksChunks_not_last_pause n s0.content idx c hc
      · exact ih _ s b hs hb hcl c hc

/-- Claim C10: the last-block pause overrides are keyed to the position of a
block among the source blocks, not among surviving units: when the last
content block of the last section cleans to empty text and is skipped, no
emitted unit receives the 3.0s chapter-end pause. -/
theorem c10_skipped_chapter_end (chapterNum : Nat) (lang : String)
    (chapter : Chapter) (s : Section) (b : Block)
    (hs : chapter.sections.getLast? = some s)
    (hb : s.content.getLast? = some b)
    (hcl : cleanText b.text = "") :
    ∀ c ∈ (prepareChapterChunks chapterNum lang chapter).chunks,
      c.pauseAfter ≠ PAUSES.endChapter := by
  intro c hc
  simp only [prepareChapterChunks, List.mem_cons] at hc
  rcases hc with hc | hc
  · subst hc
    show PAUSES.afterTitle ≠ PAUSES.endChapter
    decide
  · exact sectionsChunks_last_empty_pause chapterNum chapter.sections 1 s b
      hs hb hcl c hc

theorem c10_witness :
    (⟨"ch1-chunk-002", "paragraph", "World", PAUSES.afterParagraph⟩ : Chunk)
        ∈ (prepareChapterChunks 1 "en" exChapterC10).chunks
    ∧ (⟨"ch1-chunk-002", "paragraph", "World", PAUSES.afterParagraph⟩ : Chunk).pauseAfter
        ≠ PAUSES.endChapter :=
  ⟨by decide,
    c10_skipped_chapter_end 1 "en" exChapterC10
      ⟨[⟨"paragraph", "World"⟩, ⟨"paragraph", "\x7bref:x\x7d"⟩]⟩
      ⟨"paragraph", "\x7bref:x\x7d"⟩ (by decide) (by decide) (by decide)
      ⟨"ch1-chunk-002", "paragraph", "World", PAUSES.afterParagraph⟩ (by decide)⟩

theorem generateSilences_mono :
    ∀ (ds : List ℚ) (acc : List AudioPath × Nat) (x : AudioPath),
      x ∈ acc.1 → x ∈ (generateSilences ds acc).1 := by
  intro ds
  induction ds with
  | nil => intro acc x hx; simpa [generateSilences] using hx
  | cons d rest ih =>
    intro acc x hx
    rw [generateSilences]
    apply ih
    by_cases hd : AudioPath.silence d ∈ acc.1 <;>
      simp [generateSilence, hd, hx]

theorem mem_generateAllSilences (fs : List AudioPath) (x : AudioPath)
    (hx : x ∈ fs) : x ∈ (generateAllSilences fs).1 :=
  generateSilences_mono silenceDurations (fs, 0) x hx

theorem mem_generateSilence_self (d : ℚ) (fs : List AudioPath) :
    AudioPath.silence d ∈ (generateSilence d fs).1 := by
  by_cases hd : AudioPath.silence d ∈ fs <;> simp [generateSilence, hd]

theorem mem_silence_generateSilences :
    ∀ (ds : List ℚ) (acc : List AudioPath × Nat) (d : ℚ), d ∈ ds →
      AudioPath.silence d ∈ (generateSilences ds acc).1 := by
  intro ds
  induction ds with
  | nil => intro acc d hd; simp at hd
  | cons d0 rest ih =>
    intro acc d hd
    rcases List.mem_cons.mp hd with hd | hd
    · subst hd
      rw [generateSilences]
      exact generateSilences_mono rest _ _ (mem_generateSilence_self d acc.1)
    · rw [generateSilences]
      exact ih _ d hd

theorem runLoop_skip_all (oracle : Nat → Resp) (chunks : List Chunk) :
    ∀ (k : Nat) (st : RunState),
      (∀ c ∈ chunks, AudioPath.clip c.id ∈ st.files) →
      st.i + k = chunks.length →
      runLoop oracle chunks k st
        = RunOutcome.done
            ⟨chunks.length, st.successCount + k, st.errorCount, st.calls,
              st.throttles, st.files⟩ := by
  intro k
  induction k with
  | zero =>
    intro st hall hlen
    obtain ⟨i, s, e, cl, t, f⟩ := st
    simp only at hlen
    rw [runLoop]
    simp only [Nat.add_zero] at hlen ⊢
    rw [if_neg (by omega)]
    simp [hlen]
  | succ k ih =>
    intro st hall hlen
    have hi : st.i < chunks.length := by omega
    rw [runLoop, dif_pos hi]
    have hmem : AudioPath.clip (chunks.get ⟨st.i, hi⟩).id ∈ st.files :=
      hall _ (List.get_mem chunks st.i hi)
    simp only [hmem, if_pos]
    rw [ih _ (by simpa using hall) (by simp; omega)]
    simp only []
    congr 1
    simp
    omega

/-- Claim C3: running the Synthesis Runner over a manifest whose clips all
already exist performs zero synthesis calls, counts every unit as a
success with zero errors, and the process exit status is zero. -/
theorem c3_rerun_noop (oracle : Nat → Resp) (data : ChunksData)
    (fs : List AudioPath)
    (hall : ∀ c ∈ data.chunks, AudioPath.clip c.id ∈ fs) :
    generateChapterAudio oracle data fs data.chunks.length
      = RunOutcome.done
          ⟨data.chunks.length, data.chunks.length, 0, 0, 0,
            (generateAllSilences fs).1⟩
    ∧ runExitCode
        ⟨data.chunks.length, data.chunks.length, 0, 0, 0,
          (generateAllSilences fs).1⟩ = 0 := by
  constructor
  · rw [generateChapterAudio]
    rw [runLoop_skip_all oracle data.chunks data.chunks.length
      (initState (generateAllSilences fs).1)
      (fun c hc => mem_generateAllSilences fs _ (hall c hc))
      (by simp [initState])]
    simp [initState]
  · rfl

theorem c3_rerun_noop_witness :
    generateChapterAudio (fun _ => Resp.failed) exDataA exFsA exDataA.chunks.length
      = RunOutcome.done
          ⟨exDataA.chunks.length, exDataA.chunks.length, 0, 0, 0,
            (generateAllSilences exFsA).1⟩
    ∧ runExitCode
        ⟨exDataA.chunks.length, exDataA.chunks.length, 0, 0, 0,
          (generateAllSilences exFsA).1⟩ = 0 :=
  c3_rerun_noop (fun _ => Resp.failed) exDataA exFsA (by decide)

theorem runLoop_throttled_aux :
    ∀ (fuel : Nat) (st : RunState), st.i = 0 → st.files = [] →
      runLoop alwaysThrottled exChunksC4 fuel st
        = RunOutcome.fuelOut
            ⟨0, st.successCount, st.errorCount + fuel, st.calls + fuel,
              st.throttles + fuel, []⟩ := by
  intro fuel
  induction fuel with
  | zero =>
    intro st h0 hf
    rw [runLoop, if_pos (by rw [h0]; decide)]
    obtain ⟨i, s, e, cl, t, f⟩ := st
    simp_all
  | succ f ih =>
    intro st h0 hf
    have hi : st.i < exChunksC4.length := by rw [h0]; decide
    rw [runLoop, dif_pos hi]
    rw [if_neg (by rw [hf]; exact List.not_mem_nil _)]
    show runLoop alwaysThrottled exChunksC4 f
        { st with errorCount := st.errorCount + 1, calls := st.calls + 1,
                  throttles := st.throttles + 1 }
      = RunOutcome.fuelOut
          ⟨0, st.successCount, st.errorCount + (f + 1), st.calls + (f + 1),
            st.throttles + (f + 1), []⟩
    rw [ih _ (by simpa using h0) (by simpa using hf)]
    simp only [RunOutcome.fuelOut.injEq, RunState.mk.injEq, and_true, true_and]
    omega

/-- Claim C4 (evaluation of the code at the failing input): on a one-unit
manifest whose clip is not on disk and a synthesis capability that answers
every call with 429, the loop never finishes for any fuel bound: it is
still at unit index 0 with one attempt, one error and one throttle per
unit of fuel spent, so the number of retries of the throttled unit is
unbounded and no fatal error is ever surfaced.  (The claim is right that
the same unit is retried; the code lacks the bound it requires.) -/
theorem c4_throttle_retries_unbounded (fuel : Nat) :
    runLoop alwaysThrottled exChunksC4 fuel (initState [])
      = RunOutcome.fuelOut ⟨0, 0, fuel, fuel, fuel, []⟩ := by
  have h := runLoop_throttled_aux fuel (initState []) rfl rfl
  simpa [initState] using h

/-- Claim C7: provisioning a silence asset is idempotent and at most once
per duration (a no-op that writes nothing when the file exists, exactly one
write otherwise), all five duration buckets are present after
generateAllSilences, and generateChapterAudio runs its synthesis loop on
the filesystem produced by provisioning, i.e. provisioning happens before
any unit is synthesized. -/
theorem c7_silence_provisioning :
    (∀ (d : ℚ) (fs : List AudioPath), AudioPath.silence d ∈ fs →
        generateSilence d fs = (fs, 0))
    ∧ (∀ (d : ℚ) (fs : List AudioPath), AudioPath.silence d ∉ fs →
        generateSilence d fs = (AudioPath.silence d :: fs, 1))
    ∧ (∀ (d : ℚ) (fs : List AudioPath),
        generateSilence d (generateSilence d fs).1 = ((generateSilence d fs).1, 0))
    ∧ (∀ (fs : List AudioPath) (d : ℚ), d ∈ silenceDurations →
        AudioPath.silence d ∈ (generateAllSilences fs).1)
    ∧ (∀ (oracle : Nat → Resp) (data : ChunksData) (fs : List AudioPath)
        (fuel : Nat),
        generateChapterAudio oracle data fs fuel
          = runLoop oracle data.chunks fuel (initState (generateAllSilences fs).1)) := by
  refine ⟨?_, ?_, ?_, ?_, ?_⟩
  · intro d fs hd; simp [generateSilence, hd]
  · intro d fs hd; simp [generateSilence, hd]
  · intro d fs
    by_cases hd : AudioPath.silence d ∈ fs <;> simp [generateSilence, hd]
  · intro fs d hd
    exact mem_silence_generateSilences silenceDurations (fs, 0) d hd
  · intro oracle data fs fuel; rfl

theorem c7_witness :
    generateSilence PAUSES.afterParagraph [AudioPath.silence PAUSES.afterParagraph]
      = ([AudioPath.silence PAUSES.afterParagraph], 0)
    ∧ generateSilence PAUSES.afterParagraph []
      = ([AudioPath.silence PAUSES.afterParagraph], 1)
    ∧ AudioPath.silence PAUSES.endChapter ∈ (generateAllSilences []).1 :=
  ⟨c7_silence_provisioning.1 PAUSES.afterParagraph _ (by decide),
   c7_silence_provisioning.2.1 PAUSES.afterParagraph [] (by decide),
   c7_silence_provisioning.2.2.2.1 [] PAUSES.endChapter (by decide)⟩

theorem buildEntries_all_present (fs : List AudioPath) :
    ∀ chunks : List Chunk,
      (∀ c ∈ chunks, AudioPath.clip c.id ∈ fs) →
      (∀ c ∈ chunks, 0 < c.pauseAfter → AudioPath.silence c.pauseAfter ∈ fs) →
      buildEntries fs chunks = Except.ok (concatEntriesSpec chunks, []) := by
  intro chunks
  induction chunks with
  | nil => intro _ _; rfl
  | cons c rest ih =>
    intro hclips hsil
    have hc : AudioPath.clip c.id ∈ fs := hclips c (by simp)
    have hrec := ih (fun x hx => hclips x (by simp [hx]))
      (fun x hx => hsil x (by simp [hx]))
    rw [buildEntries, if_pos hc]
    by_cases hp : 0 < c.pauseAfter
    · rw [if_pos hp, if_pos (hsil c (by simp) hp), hrec]
      simp [concatEntriesSpec, hp]
    · rw [if_neg hp, hrec]
      simp [concatEntriesSpec, hp]

theorem concatEntriesSpec_length :
    ∀ chunks : List Chunk, (∀ c ∈ chunks, 0 ≤ c.pauseAfter) →
      (concatEntriesSpec chunks).length
          + chunks.countP (fun c => decide (c.pauseAfter = 0))
        = 2 * chunks.length := by
  intro chunks
  induction chunks with
  | nil => intro _; simp [concatEntriesSpec]
  | cons c rest ih =>
    intro hnn
    have hrest := ih (fun x hx => hnn x (by simp [hx]))
    by_cases hp : 0 < c.pauseAfter
    · simp only [concatEntriesSpec, hp, if_true, List.countP_cons, List.length_cons,
        List.length_append, List.length_cons, List.cons_append]
      simp [hp.ne']
      omega
    · have hz : c.pauseAfter = 0 := le_antisymm (not_lt.mp hp) (hnn c (by simp))
      simp only [concatEntriesSpec, hp, if_false, List.countP_cons, List.length_cons]
      simp [hz]
      omega

/-- Claim C2: when every clip and every needed silence asset exists, the
list handed to the concatenation tool is exactly clip, then silence of
that unit's own pause when positive, unit by unit in manifest order; and
its entry count is two per unit minus the units with zero pause. -/
theorem c2_concat_order (chapterNum : Nat) (lang : String) (data : ChunksData)
    (fs : List AudioPath) (ffmpegOk : Bool)
    (hclips : ∀ c ∈ data.chunks, AudioPath.clip c.id ∈ fs)
    (hsil : ∀ c ∈ data.chunks, 0 < c.pauseAfter →
        AudioPath.silence c.pauseAfter ∈ fs)
    (hnn : ∀ c ∈ data.chunks, 0 ≤ c.pauseAfter) :
    (concatChapterAudio chapterNum lang data fs ffmpegOk).invocation
      = some ⟨concatEntriesSpec data.chunks, concatOutputFile chapterNum lang, true⟩
    ∧ (concatEntriesSpec data.chunks).length
        + data.chunks.countP (fun c => decide (c.pauseAfter = 0))
      = 2 * data.chunks.length := by
  constructor
  · simp only [concatChapterAudio, buildEntries_all_present fs data.chunks hclips hsil]
    cases ffmpegOk <;> simp
  · exact concatEntriesSpec_length data.chunks hnn

theorem c2_concat_order_witness :
    (concatChapterAudio 1 "en" exDataA exFsB true).invocation
      = some ⟨concatEntriesSpec exDataA.chunks, concatOutputFile 1 "en", true⟩
    ∧ (concatEntriesSpec exDataA.chunks).length
        + exDataA.chunks.countP (fun c => decide (c.pauseAfter = 0))
      = 2 * exDataA.chunks.length :=
  c2_concat_order 1 "en" exDataA exFsB true (by decide) (by decide) (by decide)

/-- Claim C5 counterexample: with the second clip missing and the 0.8s
silence asset missing as well, the assembler run aborts at the missing
silence file, not with the complete list of missing unit ids the claim
requires. -/
theorem c5_counterexample :
    AudioPath.clip "ch1-chunk-001" ∉ exFsC5
    ∧ (concatChapterAudio 1 "en" exDataC5 exFsC5 true).outcome
        = ConcatOutcome.silenceAbort PAUSES.afterParagraph
    ∧ (concatChapterAudio 1 "en" exDataC5 exFsC5 true).outcome
        ≠ ConcatOutcome.missingAbort ["ch1-chunk-001"] :=
  ⟨by decide, by decide, by decide⟩

theorem buildEntries_silences_ok (fs : List AudioPath) :
    ∀ chunks : List Chunk,
      (∀ c ∈ chunks, AudioPath.clip c.id ∈ fs → 0 < c.pauseAfter →
          AudioPath.silence c.pauseAfter ∈ fs) →
      ∃ entries, buildEntries fs chunks
        = Except.ok (entries,
            (chunks.filter (fun c => decide (AudioPath.clip c.id ∉ fs))).map
              Chunk.id) := by
  intro chunks
  induction chunks with
  | nil => intro _; exact ⟨[], rfl⟩
  | cons c rest ih =>
    intro hs
    obtain ⟨entries, he⟩ := ih (fun x hx => hs x (by simp [hx]))
    by_cases hc : AudioPath.clip c.id ∈ fs
    · by_cases hp : 0 < c.pauseAfter
      · refine ⟨AudioPath.clip c.id :: AudioPath.silence c.pauseAfter :: entries, ?_⟩
        rw [buildEntries, if_pos hc, if_pos hp, if_pos (hs c (by simp) hc hp), he]
        simp [List.filter_cons, hc]
      · refine ⟨AudioPath.clip c.id :: entries, ?_⟩
        rw [buildEntries, if_pos hc, if_neg hp, he]
        simp [List.filter_cons, hc]
    · refine ⟨entries, ?_⟩
      rw [buildEntries, if_neg hc, he]
      simp [List.filter_cons, hc]

/-- Claim C5 as amended: when at least one clip is missing and every
silence asset needed by a unit whose clip is present exists, the assembler
aborts with the complete list of the missing unit ids in manifest order,
issues no concatenation call (so no Final Artifact is written), and exits
with a nonzero status. -/
theorem c5_missing_clips_abort (chapterNum : Nat) (lang : String)
    (data : ChunksData) (fs : List AudioPath) (ffmpegOk : Bool)
    (hmiss : ∃ c ∈ data.chunks, AudioPath.clip c.id ∉ fs)
    (hsil : ∀ c ∈ data.chunks, AudioPath.clip c.id ∈ fs → 0 < c.pauseAfter →
        AudioPath.silence c.pauseAfter ∈ fs) :
    (concatChapterAudio chapterNum lang data fs ffmpegOk).outcome
      = ConcatOutcome.missingAbort
          ((data.chunks.filter (fun c => decide (AudioPath.clip c.id ∉ fs))).map
            Chunk.id)
    ∧ (concatChapterAudio chapterNum lang data fs ffmpegOk).invocation = none
    ∧ concatExitCode (concatChapterAudio chapterNum lang data fs ffmpegOk).outcome
      = 1 := by
  obtain ⟨entries, he⟩ := buildEntries_silences_ok fs data.chunks hsil
  obtain ⟨c0, hc0, hm0⟩ := hmiss
  have hmem : c0 ∈ data.chunks.filter (fun c => decide (AudioPath.clip c.id ∉ fs)) :=
    List.mem_filter.mpr ⟨hc0, by simpa using hm0⟩
  have hne : (data.chunks.filter
      (fun c => decide (AudioPath.clip c.id ∉ fs))).map Chunk.id ≠ [] := by
    intro hnil
    rw [List.map_eq_nil_iff] at hnil
    rw [hnil] at hmem
    simp at hmem
  simp only [concatChapterAudio, he]
  rw [if_neg hne]
  exact ⟨rfl, rfl, rfl⟩

theorem c5_missing_clips_abort_witness :
    (concatChapterAudio 1 "en" exDataC5 exFsC5w true).outcome
      = ConcatOutcome.missingAbort
          ((exDataC5.chunks.filter
            (fun c => decide (AudioPath.clip c.id ∉ exFsC5w))).map Chunk.id)
    ∧ (concatChapterAudio 1 "en" exDataC5 exFsC5w true).invocation = none
    ∧ concatExitCode (concatChapterAudio 1 "en" exDataC5 exFsC5w true).outcome
      = 1 :=
  c5_missing_clips_abort 1 "en" exDataC5 exFsC5w true
    ⟨⟨"ch1-chunk-001", "paragraph", "y", PAUSES.afterParagraph⟩, by decide, by decide⟩
    (by decide)

/-- Claim C8 (evaluation of the code at the failing input): when the
concatenation tool fails, the assembler does exit with a nonzero status,
but the invocation it issued writes with the overwrite flag directly to
the canonical final artifact path: there is no distinct output path and no
stage-then-move step, so a tool failure can leave a partially-written file
in place of a prior good artifact. -/
theorem c8_tool_failure_in_place :
    (concatChapterAudio 1 "en" exDataA exFsB false).outcome = ConcatOutcome.toolFail
    ∧ concatExitCode (concatChapterAudio 1 "en" exDataA exFsB false).outcome = 1
    ∧ (concatChapterAudio 1 "en" exDataA exFsB false).invocation
        = some ⟨concatEntriesSpec exDataA.chunks, concatOutputFile 1 "en", true⟩
    ∧ concatOutputFile 1 "en" = "audio/en/ch1/ch1-en.mp3" :=
  ⟨by decide, by decide, by decide, by decide⟩

theorem runLoop_done_counts (oracle : Nat → Resp) (chunks : List Chunk) :
    ∀ (fuel : Nat) (st stF : RunState),
      runLoop oracle chunks fuel st = RunOutcome.done stF →
      st.i ≤ chunks.length →
      stF.i = chunks.length
      ∧ stF.successCount + stF.errorCount + st.i + st.throttles
          = st.successCount + st.errorCount + stF.i + stF.throttles
      ∧ st.errorCount + stF.throttles ≤ stF.errorCount + st.throttles
      ∧ st.throttles ≤ stF.throttles := by
  intro fuel
  induction fuel with
  | zero =>
    intro st stF h hle
    rw [runLoop] at h
    by_cases hi : st.i < chunks.length
    · rw [if_pos hi] at h
      simp at h
    · rw [if_neg hi] at h
      injection h with h1
      subst h1
      exact ⟨by omega, by omega, by omega, by omega⟩
  | succ f ih =>
    intro st stF h hle
    rw [runLoop] at h
    by_cases hi : st.i < chunks.length
    · rw [dif_pos hi] at h
      by_cases hm : AudioPath.clip (chunks.get ⟨st.i, hi⟩).id ∈ st.files
      · rw [if_pos hm] at h
        have hres := ih _ stF h (by simp; omega)
        simp only at hres
        exact ⟨hres.1, by have := hres.2.1; simp at this; omega,
          by have := hres.2.2.1; simp at this; omega,
          by have := hres.2.2.2; simp at this; omega⟩
      · rw [if_neg hm] at h
        cases ho : oracle st.calls with
        | ok =>
          rw [ho] at h
          simp only at h
          have hres := ih _ stF h (by simp; omega)
          simp only at hres
          exact ⟨hres.1, by have := hres.2.1; simp at this; omega,
            by have := hres.2.2.1; simp at this; omega,
            by have := hres.2.2.2; simp at this; omega⟩
        | throttled =>
          rw [ho] at h
          simp only at h
          have hres := ih _ stF h (by simp; omega)
          simp only at hres
          exact ⟨hres.1, by have := hres.2.1; simp at this; omega,
            by have := hres.2.2.1; simp at this; omega,
            by have := hres.2.2.2; simp at this; omega⟩
        | failed =>
          rw [ho] at h
          simp only at h
          have hres := ih _ stF h (by simp; omega)
          simp only at hres
          exact ⟨hres.1, by have := hres.2.1; simp at this; omega,
            by have := hres.2.2.1; simp at this; omega,
            by have := hres.2.2.2; simp at this; omega⟩
    · rw [dif_neg hi] at h
      injection h with h1
      subst h1
      exact ⟨by omega, by omega, by omega, by omega⟩

/-- Claim C9: the runner increments its error count on every throttled
response before retrying, so a run that saw at least one 429 and still
completed reports successCount plus errorCount equal to the unit count
plus the number of throttles (hence strictly above the unit count), has a
nonzero error count, and exits with status one even if every unit
eventually succeeded. -/
theorem c9_throttle_nonzero_exit (oracle : Nat → Resp) (data : ChunksData)
    (fs : List AudioPath) (fuel : Nat) (stF : RunState)
    (hdone : generateChapterAudio oracle data fs fuel = RunOutcome.done stF)
    (hthr : 0 < stF.throttles) :
    stF.successCount + stF.errorCount = data.chunks.length + stF.throttles
    ∧ data.chunks.length < stF.successCount + stF.errorCount
    ∧ 0 < stF.errorCount
    ∧ runExitCode stF = 1 := by
  have hres := runLoop_done_counts oracle data.chunks fuel
    (initState (generateAllSilences fs).1) stF hdone (by simp [initState])
  simp only [initState] at hres
  obtain ⟨h1, h2, h3, h4⟩ := hres
  refine ⟨by omega, by omega, by omega, ?_⟩
  rw [runExitCode, if_neg (by omega)]

theorem c9_throttle_nonzero_exit_witness :
    exStC9.successCount + exStC9.errorCount
      = exDataC9.chunks.length + exStC9.throttles
    ∧ exDataC9.chunks.length < exStC9.successCount + exStC9.errorCount
    ∧ 0 < exStC9.errorCount
    ∧ runExitCode exStC9 = 1 :=
  c9_throttle_nonzero_exit exOracleC9 exDataC9 [] 3 exStC9 (by decide) (by decide)
